import Mathlib

/-!
Verification development for the bit-packed chess engine of
`src/python/src/bitboard.py` (class `BitBoard`).

A position is the Python object's `_bits` field: a single natural number
packing 64 squares of 4 bits each (bits 0-255), the side to move (bit 256,
1 = white), the four castling rights (bits 257-260) and the en-passant
target square (bits 261-266).  A move is the integer encoding
`| meta (4) | promotion (3) | dest piece (3) | src piece (3) | dest sq (6) | src sq (6) |`.

All definitions below are direct transcriptions of the Python source.
Python's `x & ~(m)` on unbounded ints is rendered as `x ^^^ (x &&& m)`
(identical on naturals for every mask `m`), and Python `while` loops over
board rays are rendered with an explicit fuel of 64, which exceeds the
length of every ray on a 64-square board (each step moves the index by a
fixed nonzero amount).
-/

set_option maxRecDepth 2000000

namespace BitBoard

def STARTING_FEN : String := "rnbqkbnr/pppppppp/8/8/8/8/PPPPPPPP/RNBQKBNR w KQkq - 0 1"

def EMPTY : Nat := 0
def PAWN : Nat := 1
def KNIGHT : Nat := 2
def BISHOP : Nat := 3
def ROOK : Nat := 4
def QUEEN : Nat := 5
def KING : Nat := 6

def BOARD_SIZE : Nat := 8
def NUM_SQUARES : Nat := 64
def MAX_INDEX : Nat := 255
def PIECE_SIZE : Nat := 4
def PIECE_MASK : Nat := 15
def CASTLES_MASK : Nat := 15
def ENPASSANT_MASK : Nat := 63

def BOARD_START : Nat := 0
def SIDE_TO_MOVE_START : Nat := 256
def CASTLES_START : Nat := 257
def ENPASSANT_START : Nat := 261

def PIECE_STRING : String := " pnbrqk"

/-- Small signed offsets, written with `Int`'s constructors so that kernel
reduction stays on the fast numeral path (`-2`, `-1`, `0`, `1`, `2`). -/
def im2 : Int := Int.negSucc 1
def im1 : Int := Int.negSucc 0
def i0 : Int := Int.ofNat 0
def i1 : Int := Int.ofNat 1
def i2 : Int := Int.ofNat 2

def ROOK_DIRS : List (Int × Int) := [(im1,i0),(i1,i0),(i0,im1),(i0,i1)]
def BISHOP_DIRS : List (Int × Int) := [(im1,im1),(im1,i1),(i1,im1),(i1,i1)]
def KNIGHT_DIRS : List (Int × Int) :=
  [(im2,im1),(im2,i1),(i2,im1),(i2,i1),(im1,im2),(im1,i2),(i1,im2),(i1,i2)]
def ROYAL_DIRS : List (Int × Int) :=
  [(im1,im1),(im1,i0),(im1,i1),(i0,im1),(i0,i1),(i1,im1),(i1,i0),(i1,i1)]

def DEST_SQ : Nat := 6
def SRC_PIECE : Nat := 12
def DEST_PIECE : Nat := 15
def PROMO_PIECE : Nat := 18
def MOVE_META : Nat := 21

def MOVE_SQ_MASK : Nat := 0b111111
def MOVE_PIECE_MASK : Nat := 0b111
def MOVE_META_MASK : Nat := 0b1111

def CAPTURE : Nat := 0b00001
def CASTLE : Nat := 0b00010
def CHECK : Nat := 0b00100
def PROMOTION : Nat := 0b01000

/-- `PIECE_MAP = {"r":ROOK, "b":BISHOP, "n":KNIGHT, "q":QUEEN}`; a missing key
raises `KeyError` in Python, rendered as `none`. -/
def PIECE_MAP (c : Char) : Option Nat :=
  if c == 'r' then some ROOK
  else if c == 'b' then some BISHOP
  else if c == 'n' then some KNIGHT
  else if c == 'q' then some QUEEN
  else none

/-- `CASTLE_MOVES` dict: the four castle move encodings mapped to the home
square of the rook to relocate. -/
def CASTLE_MOVES (move : Nat) : Option Nat :=
  if move == 0o20060604 then some 0o07
  else if move == 0o20060204 then some 0o00
  else if move == 0o20067674 then some 0o77
  else if move == 0o20067274 then some 0o70
  else none

/-- `algebraicToIndex`: `(8*(8-int(algebraic[1]))) + ord(algebraic[0])-ord('a')`,
computed over ℤ because the Python value can be negative (a rank digit of 9,
or a file character below `a` on a high rank).  `none` models the Python
exceptions of this line: an `IndexError` when the string has fewer than two
characters, and a `ValueError` from `int()` when the rank character is not a
digit — on ASCII characters `int()` accepts exactly the digits 0–9, which is
the `Char.isDigit` test. -/
def algebraicToIndex (s : String) : Option Int :=
  match s.data with
  | c0 :: c1 :: _ =>
    if c1.isDigit then
      some ((BOARD_SIZE : Int) * (8 - ((c1.toNat : Int) - 48)) + ((c0.toNat : Int) - 97))
    else none
  | _ => none

/-- `indexToAlgebraic`: file letter from `"abcdefgh"` plus `str(8 - index/8)`. -/
def indexToAlgebraic (index : Nat) : String :=
  String.mk [ "abcdefgh".data.getD (index % BOARD_SIZE) ' ',
              Char.ofNat (48 + (8 - index / BOARD_SIZE)) ]

/-- The value of a direction offset plus 2, as a natural number.  Direction
offsets all lie in `[-2, 2]`, so this biased value lies in `[0, 4]`. -/
def coordVal : Int → Nat
  | Int.ofNat n => n + 2
  | Int.negSucc n => 1 - n

/-- `indexPlusCoord`: returns the shifted index and an out-of-bounds flag.
Python returns `-1` for an off-board result; that index is never read when
the flag is true, so 0 stands in for it.  The arithmetic
`result = index + coord[0]*BOARD_SIZE + coord[1]` is carried out in ℕ with
both offsets biased by +2 (so `t = result + 18`), which keeps every
operation on the kernel's accelerated path; the bounds checks
`result < 0`, `result > 63`, `col < 0`, `col > 7` become `t < 18`,
`t > 81`, `col+2 < 2`, `col+2 > 9`. -/
def indexPlusCoord (index : Nat) (coord : Int × Int) : Nat × Bool :=
  let t := index + coordVal coord.1 * BOARD_SIZE + coordVal coord.2
  if t < 18 || 81 < t then (0, true)
  else
    let col := index % BOARD_SIZE + coordVal coord.2
    (t - 18, col < 2 || 9 < col)

def getPiece (bits index : Nat) : Nat :=
  (bits &&& (PIECE_MASK <<< (PIECE_SIZE * index))) >>> (PIECE_SIZE * index)

/-- `bits & ~(PIECE_MASK << address)` on unbounded ints. -/
def removePiece (bits address : Nat) : Nat :=
  bits ^^^ (bits &&& (PIECE_MASK <<< address))

def addPiece (bits address piece : Nat) : Nat :=
  (removePiece bits address) ||| (piece <<< address)

def pieceType (piece : Nat) : Nat := piece &&& 7

/-- `abs(a - b)` of Python, over naturals. -/
def natAbsDiff (a b : Nat) : Nat := if b ≤ a then a - b else b - a

def pieceSide (piece : Nat) : Nat := (piece &&& 8) >>> 3

def areEnemies (p1 p2 : Nat) : Bool := pieceSide p1 != pieceSide p2

def isBackRank (index : Nat) : Bool := index < 8 || 56 ≤ index

/-- `str.split(sep)` for a one-character separator (as `createFromFen` uses
it), written by structural recursion so that it evaluates in the kernel. -/
def splitCharAux (sep : Char) : List Char → List Char → List String
  | [], acc => [String.mk acc.reverse]
  | c :: cs, acc =>
    if c == sep then String.mk acc.reverse :: splitCharAux sep cs []
    else splitCharAux sep cs (c :: acc)

def splitChar (sep : Char) (s : String) : List String := splitCharAux sep s.data []

/-- Board-layout step of `createFromFen`: fold one FEN character into the
running `(bits, address)` state. -/
def fenPieceChar (st : Nat × Nat) (ch : Char) : Nat × Nat :=
  if ch.isDigit then (st.1, st.2 + PIECE_SIZE * (ch.toNat - 48))
  else
    let player : Nat := if ch.isLower then 0 else 1
    let piece :=
      (player <<< 3) |||
        (if ch.toLower == 'p' then PAWN
         else if ch.toLower == 'r' then ROOK
         else if ch.toLower == 'b' then BISHOP
         else if ch.toLower == 'n' then KNIGHT
         else if ch.toLower == 'q' then QUEEN
         else if ch.toLower == 'k' then KING
         else 0)
    (st.1 ||| (piece <<< st.2), st.2 + PIECE_SIZE)

/-- One castling-rights letter of `createFromFen`. -/
def fenCastleChar (castles : Nat) (c : Char) : Nat :=
  let tmp : Nat := if c.isLower then 0b0001 else 0b0100
  if c.toLower == 'k' then castles ||| tmp
  else if c.toLower == 'q' then castles ||| (tmp <<< 1)
  else castles

/-- `createFromFen`, producing the `_bits` value of the constructed board. -/
def createFromFen (fenstring : String) : Nat :=
  let fenArr := splitChar ' ' fenstring
  let rows := splitChar '/' (fenArr.getD 0 "")
  let st := rows.foldl (fun st row => row.data.foldl fenPieceChar st) (0, BOARD_START)
  let bits := st.1
  let bits := if fenArr.getD 1 "" == "w" then bits ||| (1 <<< SIDE_TO_MOVE_START) else bits
  let castles := (fenArr.getD 2 "").data.foldl fenCastleChar 0
  let bits := bits ||| (castles <<< CASTLES_START)
  let ep := fenArr.getD 3 "-"
  if ep != "-" then
    match algebraicToIndex ep with
    | some i => bits ||| (i.toNat <<< ENPASSANT_START)
    | none => bits  -- Python raises ValueError here; no FEN in this file reaches it
  else bits

def getCastles (bits : Nat) : Nat :=
  (bits &&& (CASTLES_MASK <<< CASTLES_START)) >>> CASTLES_START

/-- 0 = black to move, 1 = white to move. -/
def whiteToMove (bits : Nat) : Nat :=
  (bits &&& (1 <<< SIDE_TO_MOVE_START)) >>> SIDE_TO_MOVE_START

/-- 0 = black, 8 = white (the side bit in piece position). -/
def sideToMove (bits : Nat) : Nat :=
  (bits &&& (1 <<< SIDE_TO_MOVE_START)) >>> 253

def getEnpassant (bits : Nat) : Nat :=
  (bits &&& (ENPASSANT_MASK <<< ENPASSANT_START)) >>> ENPASSANT_START

def isOpponentPiece (bits piece : Nat) : Bool :=
  ((piece &&& 8) >>> 3) != whiteToMove bits

/-- The `newCastles` value computed inside `castleLogic(self, move, piece,
bits)`: the three conditional right-clearing steps of the source, factored
out of the board edit (Python interleaves them; the data flow is identical,
since the rook relocation touches `bits` only and the clears touch
`newCastles` only).  Each Python `newCastles &= ~mask` appears as
`&&& (15 ^^^ mask)`, identical on the 4-bit `newCastles`. -/
def newCastlesOf (selfBits move piece : Nat) : Nat :=
  let newCastles := getCastles selfBits
  -- Even if not castling, moving king cancels all castle possibility.
  let newCastles :=
    if pieceType piece == KING then
      newCastles &&& (15 ^^^ (0b11 <<< (if whiteToMove selfBits == 1 then 2 else 0)))
    else newCastles
  -- If our rook moves, remove that castle possibility
  let newCastles :=
    if pieceType piece == ROOK then
      let shift := (if whiteToMove selfBits == 1 then 2 else 0) +
                   (if move &&& 0b111 == 7 then 0 else 1)
      newCastles &&& (15 ^^^ (1 <<< shift))
    else newCastles
  -- If we just took on a starting rook square, remove opponent's castle possibility
  let oppRow : Nat := if whiteToMove selfBits == 1 then 7 else 0
  let destRow := (move &&& (0b111 <<< 9)) >>> 9
  if destRow == oppRow then
    let shift := (if whiteToMove selfBits == 1 then 0 else 2) +
                 (if move &&& 0b111 == 7 then 0 else 1)
    newCastles &&& (15 ^^^ (1 <<< shift))
  else newCastles

/-- The rook relocation performed by `castleLogic` when the king move is one
of the four `CASTLE_MOVES` encodings. -/
def castleRelocBits (selfBits move bits : Nat) : Nat :=
  match CASTLE_MOVES move with
  | some rookIndex =>
    let bits := removePiece bits (rookIndex * PIECE_SIZE)
    let newCol : Nat := if rookIndex &&& 0b111 == 7 then 5 else 3
    let rookDest := (rookIndex &&& (0b111 <<< 3)) ||| newCol
    addPiece bits (rookDest * PIECE_SIZE) (ROOK ||| sideToMove selfBits)
  | none => bits

/-- `castleLogic(self, move, piece, bits)`.  `selfBits` is `self._bits`. -/
def castleLogic (selfBits move piece bits : Nat) : Nat :=
  let bits := if pieceType piece == KING then castleRelocBits selfBits move bits else bits
  -- bits &= ((newCastles << CASTLES_START) | ~(CASTLES_MASK << CASTLES_START))
  (bits ^^^ (bits &&& (CASTLES_MASK <<< CASTLES_START))) |||
    (bits &&& (newCastlesOf selfBits move piece <<< CASTLES_START))

/-- Common body of `makeMove` after the string/int branch has produced
`move`, `src`, `dest` and `promo`.  (In the string branch `promo` comes from
the fifth letter, not from the move bits, so the body is shared here.)
The "Illegal move" branch of the source only prints and falls through. -/
def makeMoveCore (selfBits move src dest promo : Nat) : Nat :=
  let srcAddr := src * PIECE_SIZE
  let srcPiece := getPiece selfBits src
  let endPiece := srcPiece
  let newBits := removePiece selfBits srcAddr
  let newBits := castleLogic selfBits move srcPiece newBits
  -- Pawn promotion logic
  let endPiece :=
    if pieceType srcPiece == PAWN && (dest ≤ 0o07 || 0o70 ≤ dest) then
      (if promo > 0 then QUEEN else promo) ||| sideToMove selfBits
    else endPiece
  -- En passant capture logic
  let newBits :=
    if pieceType srcPiece == PAWN && dest == getEnpassant selfBits then
      removePiece newBits (((src &&& (0b111 <<< 3)) ||| (dest &&& 0b111)) * PIECE_SIZE)
    else newBits
  -- newBits &= ~(ENPASSANT_MASK << ENPASSANT_START)
  let newBits := newBits ^^^ (newBits &&& (ENPASSANT_MASK <<< ENPASSANT_START))
  let doubleAdvance := natAbsDiff src dest == 0o20
  let newBits :=
    if pieceType srcPiece == PAWN && doubleAdvance then
      let epRow : Nat := if whiteToMove selfBits == 1 then 0o50 else 0o20
      newBits ||| ((epRow ||| (src &&& 0b111)) <<< ENPASSANT_START)
    else newBits
  let destAddr := dest * PIECE_SIZE
  let newBits := addPiece newBits destAddr endPiece
  newBits ^^^ (1 <<< SIDE_TO_MOVE_START)

/-- `makeMove` on an already-encoded move integer. -/
def makeMove (selfBits move : Nat) : Nat :=
  makeMoveCore selfBits move
    (move &&& MOVE_SQ_MASK)
    ((move &&& (MOVE_SQ_MASK <<< DEST_SQ)) >>> DEST_SQ)
    ((move &&& (MOVE_PIECE_MASK <<< PROMO_PIECE)) >>> PROMO_PIECE)

/-- `makeMove` on a move string (`isinstance(move, str)` branch), in Python's
evaluation order: `src = algebraicToIndex(move[0:2])`, then
`dest = algebraicToIndex(move[2:4])`, then
`promo = 0 if len(move) < 5 else PIECE_MAP[move[4]]`.  `none` models every
raising path of the call: an undecodable square slice (see
`algebraicToIndex`), an unknown promotion letter (`KeyError` in the
`PIECE_MAP` lookup), and a negative decoded index — Python carries the
negative int into the move body and raises `ValueError: negative shift
count` at the first board access (`getPiece`, or `removePiece` inside
`addPiece` for the destination).  A decoded index of 64 or more raises
nothing: the board reads and writes just address high bits of the integer,
so the natural-number body `makeMoveCore` is followed exactly. -/
def makeMoveStr (selfBits : Nat) (move : String) : Option Nat :=
  match algebraicToIndex (String.mk (move.data.take 2)) with
  | none => none
  | some src =>
    match algebraicToIndex (String.mk ((move.data.drop 2).take 2)) with
    | none => none
    | some dest =>
      match (match move.data with
             | _ :: _ :: _ :: _ :: [] => some 0
             | _ :: _ :: _ :: _ :: c4 :: _ => PIECE_MAP c4
             | _ => (none : Option Nat)) with
      | none => none
      | some promo =>
        if src < 0 || dest < 0 then none
        else
          some (makeMoveCore selfBits ((dest.toNat <<< DEST_SQ) ||| src.toNat)
            src.toNat dest.toNat promo)

/-- A two-character square name that Python's string-move path survives: the
rank character is an ASCII digit (otherwise `int()` raises `ValueError`) and
the decoded index `8*(8-rank) + (ord(file) - ord('a'))` is non-negative
(otherwise the first board access raises `ValueError` on a negative shift).
An index of 64 or more is NOT rejected — Python addresses high bits of the
board integer without raising. -/
def goodSquare (c0 c1 : Char) : Bool :=
  c1.isDigit &&
    decide (0 ≤ (BOARD_SIZE : Int) * (8 - ((c1.toNat : Int) - 48)) + ((c0.toNat : Int) - 97))

/-- The move texts on which Python's string-move path completes without
raising: at least four characters, both square names decodable to
non-negative indices, and any fifth character a known promotion letter. -/
def moveTextOk (s : String) : Bool :=
  match s.data with
  | c0 :: c1 :: c2 :: c3 :: rest =>
    goodSquare c0 c1 && goodSquare c2 c3 &&
      (match rest with
       | [] => true
       | c4 :: _ => (PIECE_MAP c4).isSome)
  | _ => false

/-- `constructMove(srcSq, destSq, srcPiece, destPiece=0, meta=0, promoPiece=0)`. -/
def constructMove (srcSq destSq srcPiece destPiece meta promoPiece : Nat) : Nat :=
  (meta <<< MOVE_META) ||| (promoPiece <<< PROMO_PIECE) |||
    (pieceType destPiece <<< DEST_PIECE) ||| (pieceType srcPiece <<< SRC_PIECE) |||
    (destSq <<< DEST_SQ) ||| srcSq

/-- One ray of `legalMovesForNonPawns`: the `while` loop plus the code after
it, with fuel 64 (never exhausted: each step moves the index by the same
nonzero offset, so a ray visits at most 64 squares). -/
def slideGo (bits piece index : Nat) (multiStep : Bool) (d : Int × Int) :
    Nat → Nat → Bool → List Nat
  | 0, _, _ => []
  | fuel+1, destSq, outOfBounds =>
    if multiStep && !outOfBounds && getPiece bits destSq == 0 then
      let next := indexPlusCoord destSq d
      constructMove index destSq piece 0 0 0 ::
        slideGo bits piece index multiStep d fuel next.1 next.2
    else if outOfBounds then []
    else
      let destPiece := getPiece bits destSq
      if destPiece != 0 && areEnemies piece destPiece then
        [constructMove index destSq piece destPiece CAPTURE 0]
      else if !multiStep && destPiece == 0 then
        [constructMove index destSq piece destPiece 0 0]
      else []

def dirMoves (bits piece index : Nat) (multiStep : Bool) (d : Int × Int) : List Nat :=
  let start := indexPlusCoord index d
  slideGo bits piece index multiStep d 64 start.1 start.2

/-- `legalMovesForNonPawns(self, piece, index, directions)`.
`multiStep = PIECE_STRING[pieceType(piece)] in "rbq"`. -/
def legalMovesForNonPawns (bits piece index : Nat) (directions : List (Int × Int)) :
    List Nat :=
  let multiStep := "rbq".data.contains (PIECE_STRING.data.getD (pieceType piece) ' ')
  (directions.map (dirMoves bits piece index multiStep)).flatten

/-- One diagonal of the pawn-take loop.  The second component is the Python
variable `destPiece`, which survives the loop and leaks into the
promotion-advance branch (so it is threaded through explicitly). -/
def pawnDiagStep (bits pawn index : Nat) (diag : Int × Int) (destPieceIn : Nat) :
    List Nat × Nat :=
  let st := indexPlusCoord index diag
  if st.2 then ([], destPieceIn)
  else
    let destSq := st.1
    let destPiece := getPiece bits destSq
    if destPiece != 0 && areEnemies pawn destPiece then
      if isBackRank destSq then
        ([QUEEN, ROOK, BISHOP, KNIGHT].map (fun promo =>
            constructMove index destSq pawn destPiece (CAPTURE ||| PROMOTION) promo),
         destPiece)
      else ([constructMove index destSq pawn destPiece CAPTURE 0], destPiece)
    else if destSq == getEnpassant bits && destSq > 0 then
      ([constructMove index destSq pawn PAWN CAPTURE 0], destPiece)
    else ([], destPiece)

/-- `legalMovesForPawn(self, pawn, index)`.  The initial `destPiece` value 0
is never read: the promotion-advance line is reachable only when at least
one diagonal was in bounds (in Python the variable would otherwise be
unbound there). -/
def legalMovesForPawn (bits pawn index : Nat) : List Nat :=
  let forward : Int := if whiteToMove bits == 1 then im1 else i1
  let d1 := pawnDiagStep bits pawn index (forward, im1) 0
  let d2 := pawnDiagStep bits pawn index (forward, i1) d1.2
  let moves := d1.1 ++ d2.1
  let destPiece := d2.2
  -- Pawn advance logic
  let adv := indexPlusCoord index (forward, i0)
  if adv.2 || getPiece bits adv.1 != 0 then moves
  else
    let destSq := adv.1
    let moves := moves ++
      (if isBackRank destSq then
        [QUEEN, ROOK, BISHOP, KNIGHT].map (fun promo =>
          constructMove index destSq pawn destPiece 0 promo)
       else [constructMove index destSq pawn 0 0 0])
    -- Pawn double advance logic
    if index / BOARD_SIZE != (if whiteToMove bits == 1 then 6 else 1) then moves
    else
      -- index + 2*BOARD_SIZE*forward, with forward = -1 for white and 1 for black
      let double := if whiteToMove bits == 1 then index - 2 * BOARD_SIZE
                    else index + 2 * BOARD_SIZE
      if getPiece bits double == 0 then
        moves ++ [constructMove index double pawn 0 0 0]
      else moves

/-- `DIR_MAP` lookup; only ever called with piece types 2-6. -/
def DIR_MAP (pt : Nat) : List (Int × Int) :=
  if pt == ROOK then ROOK_DIRS
  else if pt == BISHOP then BISHOP_DIRS
  else if pt == QUEEN then ROYAL_DIRS
  else if pt == KNIGHT then KNIGHT_DIRS
  else if pt == KING then ROYAL_DIRS
  else []

def legalMovesForPiece (bits piece index : Nat) : List Nat :=
  if pieceType piece == PAWN then legalMovesForPawn bits piece index
  else legalMovesForNonPawns bits piece index (DIR_MAP (pieceType piece))

/-- One ray of `isSquareAttackedByPiece`, fuel 64 as in `slideGo`. -/
def attackRay (bits target : Nat) (pieces : String) (multiStep : Bool) (d : Int × Int) :
    Nat → Nat → Bool → Bool
  | 0, _, _ => false
  | fuel+1, tmp, outOfBounds =>
    if multiStep && !outOfBounds && getPiece bits tmp == 0 then
      let next := indexPlusCoord tmp d
      attackRay bits target pieces multiStep d fuel next.1 next.2
    else if outOfBounds then false
    else
      let piece := getPiece bits tmp
      let pieceStr := PIECE_STRING.data.getD (pieceType piece) ' '
      pieces.data.contains pieceStr && areEnemies piece target

/-- `isSquareAttackedByPiece(self, index, target, directions, pieces)`. -/
def isSquareAttackedByPiece (bits index target : Nat) (directions : List (Int × Int))
    (pieces : String) : Bool :=
  let multiStep := "rbq".data.any (fun p => pieces.data.contains p)
  directions.any (fun d =>
    let start := indexPlusCoord index d
    attackRay bits target pieces multiStep d 64 start.1 start.2)

/-- `isSquareAttacked(self, index, target)`, with `target` passed explicitly
(the `target=None` default is not used by the code under study). -/
def isSquareAttacked (bits index target : Nat) : Bool :=
  if isSquareAttackedByPiece bits index target KNIGHT_DIRS "n"
      || isSquareAttackedByPiece bits index target ROOK_DIRS "rq"
      || isSquareAttackedByPiece bits index target BISHOP_DIRS "bq"
      || isSquareAttackedByPiece bits index target ROYAL_DIRS "k" then
    true
  else
    -- Pawn logic is special: the direction comes from the side to move
    let forward : Int := if whiteToMove bits == 1 then i1 else im1
    [(forward, i1), (forward, im1)].any (fun diag =>
      let st := indexPlusCoord index diag
      if st.2 then false
      else
        let piece := getPiece bits st.1
        pieceType piece == PAWN && areEnemies piece target)

/-- `findPiece`: scan addresses 0,4,...,252 for the first square holding
`piece`; the source raises when the piece is absent, rendered as `none`. -/
def findPieceFrom (bits piece : Nat) : Nat → Nat → Option Nat
  | 0, _ => none
  | fuel+1, i => if piece == getPiece bits i then some i else findPieceFrom bits piece fuel (i+1)

def findPiece (bits piece : Nat) : Option Nat := findPieceFrom bits piece 64 0

/-- `legalCastleMoves`, one iteration of the `for shift in range(2)` loop. -/
def castleSideMoves (bits : Nat) (shift0 : Nat) : List Nat :=
  let mask := 1 <<< (shift0 + (if whiteToMove bits == 1 then 2 else 0))
  let castle := getCastles bits &&& mask
  if castle == 0 then []
  else
    let isKingside := shift0 == 0
    -- Check squares between king and rook
    let emptyMask : Nat := if isKingside then 255 else 4095
    let shift := (if whiteToMove bits == 1 then 56 * PIECE_SIZE else 0) +
                 (if isKingside then 20 else 4)
    if bits &&& (emptyMask <<< shift) != 0 then []
    else
      -- Check that all transit squares are not attacked
      let transits : List Nat := if isKingside then [4,5,6] else [2,3,4]
      let row : Nat := if whiteToMove bits == 1 then 56 else 0
      if transits.any (fun t => isSquareAttacked bits (t + row) (sideToMove bits ||| KING)) then []
      else
        [if castle == 1 then 0o20060604
         else if castle == 2 then 0o20060204
         else if castle == 4 then 0o20067674
         else 0o20067274]

def legalCastleMoves (bits : Nat) : List Nat :=
  castleSideMoves bits 0 ++ castleSideMoves bits 1

/-- `kingCheckAnalysis`: drop moves that leave the mover's king attacked and
flag the survivors that attack the opponent's king.  The source's
`findPiece` raises if a king is missing; those branches (never reached on
boards with both kings) drop the move here. -/
def kingCheckAnalysis (selfBits : Nat) : List Nat → List Nat
  | [] => []
  | move :: rest =>
    let postMove := makeMove selfBits move
    let ourKing := KING ||| sideToMove selfBits
    match findPiece postMove ourKing with
    | none => kingCheckAnalysis selfBits rest
    | some ourKingIndex =>
      if isSquareAttacked postMove ourKingIndex ourKing then
        kingCheckAnalysis selfBits rest
      else
        let otherKing := KING ||| (if whiteToMove selfBits == 1 then 0 else 8)
        match findPiece postMove otherKing with
        | none => kingCheckAnalysis selfBits rest
        | some otherKingIndex =>
          if isSquareAttacked postMove otherKingIndex otherKing then
            (move ||| (CHECK <<< MOVE_META)) :: kingCheckAnalysis selfBits rest
          else move :: kingCheckAnalysis selfBits rest

/-- The sort key of `computeLegalMoves`:  `m & (MOVE_META_MASK << MOVE_META)`. -/
def sortKey (m : Nat) : Nat := m &&& (MOVE_META_MASK <<< MOVE_META)

/-- Stable descending insertion by `sortKey`; extensionally equal to
Python's stable `list.sort(key=..., reverse=True)`. -/
def insertDesc (x : Nat) : List Nat → List Nat
  | [] => [x]
  | y :: ys => if sortKey x < sortKey y then y :: insertDesc x ys else x :: y :: ys

def sortDesc : List Nat → List Nat
  | [] => []
  | x :: xs => insertDesc x (sortDesc xs)

/-- The per-square pseudo-legal loop of `computeLegalMoves`. -/
def pieceMoves (bits : Nat) : List Nat :=
  ((List.range NUM_SQUARES).map (fun i =>
    let piece := getPiece bits i
    if piece == 0 || isOpponentPiece bits piece then []
    else legalMovesForPiece bits piece i)).flatten

/-- `computeLegalMoves` / `getLegalMoves`: the final legal move list. -/
def computeLegalMoves (bits : Nat) : List Nat :=
  sortDesc (kingCheckAnalysis bits (pieceMoves bits ++ legalCastleMoves bits))

/-- Perft: number of legal move sequences of the given depth. -/
def perft : Nat → Nat → Nat
  | 0, _ => 1
  | d+1, bits =>
    (computeLegalMoves bits).foldl (fun acc m => acc + perft d (makeMove bits m)) 0

/-- `moveStr`: the 4- or 5-character text of a move. -/
def moveStr (move : Nat) : String :=
  let src := indexToAlgebraic (move &&& MOVE_SQ_MASK)
  let dest := indexToAlgebraic ((move &&& (MOVE_SQ_MASK <<< DEST_SQ)) >>> DEST_SQ)
  let promo := (move &&& (MOVE_PIECE_MASK <<< PROMO_PIECE)) >>> PROMO_PIECE
  src ++ dest ++ ["", "", "r", "b", "n", "q", ""].getD promo ""

/-- Apply a sequence of moves left to right. -/
def applyMoves (bits : Nat) (moves : List Nat) : Nat := moves.foldl makeMove bits

def moveSrc (m : Nat) : Nat := m &&& MOVE_SQ_MASK

def moveDest (m : Nat) : Nat := (m &&& (MOVE_SQ_MASK <<< DEST_SQ)) >>> DEST_SQ

/-- The gives-check flag of a move's meta nibble. -/
def checkFlag (m : Nat) : Bool := m &&& (CHECK <<< MOVE_META) != 0

/-- The castle flag of a move's meta nibble. -/
def castleFlag (m : Nat) : Bool := m &&& (CASTLE <<< MOVE_META) != 0

/-- The ordering property claimed of `legalMoves`: every check-flagged move
precedes every non-check-flagged move (true exactly when the list is a
block of check moves followed by a block of non-check moves). -/
def checksFirstB (l : List Nat) : Bool :=
  (l.dropWhile checkFlag).all (fun m => !checkFlag m)

/-- A pawn double advance as `makeMove` detects it: the moved piece is a
pawn and `abs(src - dest) = 0o20`. -/
def isPawnDoubleAdvance (bits m : Nat) : Bool :=
  pieceType (getPiece bits (moveSrc m)) == PAWN && (natAbsDiff (moveSrc m) (moveDest m) == 0o20)

/-- Source square occupied by a piece of the side to move. -/
def srcSquareOwn (bits m : Nat) : Bool :=
  getPiece bits (moveSrc m) != 0 && !isOpponentPiece bits (getPiece bits (moveSrc m))

/-! Concrete positions used by the claim theorems. -/

def startBits : Nat := createFromFen STARTING_FEN

/-- White pawn a7 about to promote; kings far from the promotion square. -/
def promoBits : Nat := createFromFen "8/P6k/8/8/8/8/8/4K3 w - - 0 1"

/-- Black king d8, white pawn c7 (which attacks d8), black to move. -/
def pawnAttackBitsB : Nat := createFromFen "3k4/2P5/8/8/8/8/8/4K3 b - - 0 1"

/-- The same board and castling/en-passant state with white to move. -/
def pawnAttackBitsW : Nat := createFromFen "3k4/2P5/8/8/8/8/8/4K3 w - - 0 1"

/-- White may castle king-side; the black pawn on e2 attacks f1 (and d1),
so castling through f1 is illegal by the castling rule. -/
def castleThruBits : Nat := createFromFen "4k3/8/8/8/8/8/4p3/4K2R w K - 0 1"

/-- White to move: the a7 pawn can capture-promote on b8 (no check) and the
b1 rook can give check on b5; black king g5. -/
def sortBits : Nat := createFromFen "1r6/P7/8/6k1/8/8/8/1R2K3 w - - 0 1"

/-- The starting position without the b1 knight, so the a1 rook can slide
to b1. -/
def rookSlideBits : Nat := createFromFen "rnbqkbnr/pppppppp/8/8/8/8/PPPPPPPP/R1BQKBNR w KQkq - 0 1"

/-! ### Bit-level toolkit -/

theorem and_shift_extract (x m s : Nat) : (x &&& (m <<< s)) >>> s = (x >>> s) &&& m := by
  apply Nat.eq_of_testBit_eq
  intro j
  simp [Nat.testBit_shiftRight, Nat.testBit_shiftLeft, Nat.le_add_right,
    Nat.add_sub_cancel_left]

theorem extract_le (x m s : Nat) : (x &&& (m <<< s)) >>> s ≤ m := by
  rw [and_shift_extract]
  exact Nat.and_le_right

theorem getPiece_lt_16 (bits i : Nat) : getPiece bits i < 16 :=
  Nat.lt_succ_of_le (extract_le ..)

theorem testBit_shiftLeft_low {v s k : Nat} (h : k < s) : (v <<< s).testBit k = false := by
  simp [Nat.testBit_shiftLeft, Nat.not_le.2 h]

theorem testBit_shiftLeft_small {p s k n : Nat} (hp : p < 2 ^ n) (h : s + n ≤ k) :
    (p <<< s).testBit k = false := by
  have h1 : s ≤ k := by omega
  simp only [Nat.testBit_shiftLeft, h1, decide_True, Bool.true_and]
  exact Nat.testBit_lt_two_pow (Nat.lt_of_lt_of_le hp (Nat.pow_le_pow_right (by omega) (by omega)))

theorem testBit_maskClear {x m k : Nat} (h : m.testBit k = false) :
    (x ^^^ (x &&& m)).testBit k = x.testBit k := by
  simp [h]

theorem testBit_maskClear_hit {x m k : Nat} (h : m.testBit k = true) :
    (x ^^^ (x &&& m)).testBit k = false := by
  simp [h]

theorem testBit_removePiece {x a k : Nat} (h : a + 4 ≤ k) :
    (removePiece x a).testBit k = x.testBit k :=
  testBit_maskClear (testBit_shiftLeft_small (n := 4) (by decide) h)

theorem testBit_addPiece {x a p k : Nat} (hp : p < 16) (h : a + 4 ≤ k) :
    (addPiece x a p).testBit k = x.testBit k := by
  rw [addPiece, Nat.testBit_or, testBit_removePiece h,
    testBit_shiftLeft_small (n := 4) hp h, Bool.or_false]

theorem testBit_sideFlip {x k : Nat} (h : k ≠ 256) :
    (x ^^^ ((1 : Nat) <<< SIDE_TO_MOVE_START)).testBit k = x.testBit k := by
  rcases Nat.lt_or_ge k 256 with hk | hk
  · rw [Nat.testBit_xor, SIDE_TO_MOVE_START, testBit_shiftLeft_low hk, Bool.xor_false]
  · rw [Nat.testBit_xor, SIDE_TO_MOVE_START,
      testBit_shiftLeft_small (n := 1) (by decide) (by omega), Bool.xor_false]

theorem one_shiftLeft_256 : ((1 : Nat) <<< 256) = 2 ^ 256 := by
  rw [Nat.shiftLeft_eq, Nat.one_mul]

theorem whiteToMove_eq_toNat (s : Nat) : whiteToMove s = (s.testBit 256).toNat := by
  rw [whiteToMove, SIDE_TO_MOVE_START, one_shiftLeft_256, Nat.and_two_pow,
    Nat.shiftRight_eq_div_pow, Nat.mul_div_cancel _ (Nat.pos_pow_of_pos 256 (by omega))]

theorem sideToMove_eq (s : Nat) : sideToMove s = (s.testBit 256).toNat * 8 := by
  rw [sideToMove, SIDE_TO_MOVE_START, one_shiftLeft_256, Nat.and_two_pow,
    Nat.shiftRight_eq_div_pow]
  cases s.testBit 256 <;> simp

theorem sideToMove_cases (s : Nat) : sideToMove s = 0 ∨ sideToMove s = 8 := by
  rw [sideToMove_eq]
  cases s.testBit 256 <;> simp

theorem getCastles_le (s : Nat) : getCastles s ≤ 15 := extract_le ..

theorem newCastlesOf_le (s mv p : Nat) : newCastlesOf s mv p ≤ 15 := by
  have h0 : getCastles s ≤ 15 := getCastles_le s
  unfold newCastlesOf
  dsimp only
  repeat' split
  all_goals
    repeat
      first
        | exact h0
        | apply Nat.le_trans Nat.and_le_left

theorem testBit_newCastlesOf {s mv p : Nat} {i : Nat}
    (h : (newCastlesOf s mv p).testBit i = true) : (getCastles s).testBit i = true := by
  unfold newCastlesOf at h
  try dsimp only at h
  repeat' split at h
  all_goals try simp only [Nat.testBit_and, Bool.and_eq_true] at h
  all_goals tauto

theorem rook_or_side_lt_16 (s : Nat) : ROOK ||| sideToMove s < 16 := by
  rcases sideToMove_cases s with h | h <;> rw [ROOK, h] <;> decide

theorem testBit_castleRelocBits {s mv b k : Nat} (hk : 256 ≤ k) :
    (castleRelocBits s mv b).testBit k = b.testBit k := by
  unfold castleRelocBits
  rcases h : CASTLE_MOVES mv with _ | r
  · rfl
  · have hr : r = 0o07 ∨ r = 0o00 ∨ r = 0o77 ∨ r = 0o70 := by
      unfold CASTLE_MOVES at h
      repeat' split at h
      all_goals simp_all
    dsimp only
    rcases hr with rfl | rfl | rfl | rfl <;>
      rw [testBit_addPiece (rook_or_side_lt_16 s) (Nat.le_trans (by decide) hk),
        testBit_removePiece (Nat.le_trans (by decide) hk)]

theorem testBit_castleLogic_castles {s mv p b : Nat} {i : Nat} (hi : i < 4) :
    (castleLogic s mv p b).testBit (257 + i) =
      (b.testBit (257 + i) && (newCastlesOf s mv p).testBit i) := by
  have h15 : ((CASTLES_MASK : Nat) <<< CASTLES_START).testBit (257 + i) = true := by
    interval_cases i <;> decide
  have hnc : ((newCastlesOf s mv p <<< CASTLES_START)).testBit (257 + i) =
      (newCastlesOf s mv p).testBit i := by
    interval_cases i <;>
      simp [CASTLES_START, Nat.testBit_shiftLeft]
  have hb : ∀ b0 : Nat,
      (if (pieceType p == KING) = true then castleRelocBits s mv b0 else b0).testBit (257 + i)
        = b0.testBit (257 + i) := by
    intro b0; split
    · exact testBit_castleRelocBits (by omega)
    · rfl
  rw [castleLogic]
  try dsimp only
  rw [Nat.testBit_or, testBit_maskClear_hit h15, Nat.testBit_and, hnc, hb, Bool.false_or]

theorem testBit_castleLogic_other {s mv p b k : Nat} (hk : k = 256 ∨ 261 ≤ k) :
    (castleLogic s mv p b).testBit k = b.testBit k := by
  have hb : ∀ b0 : Nat,
      (if (pieceType p == KING) = true then castleRelocBits s mv b0 else b0).testBit k
        = b0.testBit k := by
    intro b0; split
    · exact testBit_castleRelocBits (by omega)
    · rfl
  have h15 : ((CASTLES_MASK : Nat) <<< CASTLES_START).testBit k = false := by
    rcases hk with rfl | hk
    · decide
    · exact testBit_shiftLeft_small (n := 4) (by decide) (by simp [CASTLES_START]; omega)
  have hnc : ((newCastlesOf s mv p <<< CASTLES_START)).testBit k = false := by
    rcases hk with rfl | hk
    · exact testBit_shiftLeft_low (by simp [CASTLES_START])
    · exact testBit_shiftLeft_small (n := 4)
        (Nat.lt_of_le_of_lt (newCastlesOf_le ..) (by norm_num))
        (by simp [CASTLES_START]; omega)
  rw [castleLogic]
  try dsimp only
  rw [Nat.testBit_or, testBit_maskClear h15, Nat.testBit_and, hnc, Bool.and_false,
    Bool.or_false, hb]

theorem ite_lt_16 {c : Prop} [Decidable c] {a b : Nat} (ha : a < 16) (hb : b < 16) :
    (if c then a else b) < 16 := by
  split <;> assumption

theorem promoPiece_lt_16 {promo : Nat} (s : Nat) (hp : promo < 8) :
    ((if promo > 0 then QUEEN else promo) ||| sideToMove s) < 16 := by
  rw [show (16 : Nat) = 2 ^ 4 by norm_num]
  apply Nat.or_lt_two_pow
  · split
    · decide
    · omega
  · rcases sideToMove_cases s with h | h <;> rw [h] <;> norm_num

theorem testBit_makeMoveCore_castles {s mv src dest promo : Nat} (hsrc : src < 64)
    (hdest : dest < 64) (hpromo : promo < 8) {i : Nat} (hi : i < 4) :
    (makeMoveCore s mv src dest promo).testBit (257 + i) =
      (s.testBit (257 + i) && (newCastlesOf s mv (getPiece s src)).testBit i) := by
  have hcap : (((src &&& (0b111 <<< 3)) ||| (dest &&& 0b111)) * PIECE_SIZE) + 4 ≤ 257 + i := by
    have h1 : ((src &&& (0b111 <<< 3)) ||| (dest &&& 0b111)) < 2 ^ 6 :=
      Nat.or_lt_two_pow (Nat.lt_of_le_of_lt Nat.and_le_right (by decide))
        (Nat.lt_of_le_of_lt Nat.and_le_right (by decide))
    norm_num at h1
    simp only [PIECE_SIZE]
    omega
  rw [makeMoveCore]
  try dsimp only
  rw [testBit_sideFlip (by omega)]
  rw [testBit_addPiece (ite_lt_16 (promoPiece_lt_16 s hpromo) (getPiece_lt_16 ..))
    (by simp only [PIECE_SIZE]; omega)]
  split <;>
    try rw [Nat.testBit_or, testBit_shiftLeft_low (by simp [ENPASSANT_START]; omega),
      Bool.or_false]
  all_goals
    rw [testBit_maskClear
      (testBit_shiftLeft_low (k := 257 + i) (by simp [ENPASSANT_START]; omega))]
  all_goals split <;> try rw [testBit_removePiece hcap]
  all_goals
    rw [testBit_castleLogic_castles hi,
      testBit_removePiece (by simp only [PIECE_SIZE]; omega)]

theorem testBit_getCastles (x i : Nat) :
    (getCastles x).testBit i = (x.testBit (257 + i) && decide (i < 4)) := by
  rw [getCastles, CASTLES_START, CASTLES_MASK, Nat.testBit_shiftRight, Nat.testBit_and]
  congr 1
  rw [Nat.testBit_shiftLeft]
  simp only [Nat.le_add_right, decide_True, Bool.true_and, Nat.add_sub_cancel_left]
  rw [show (15 : Nat) = 2 ^ 4 - 1 from rfl, Nat.testBit_two_pow_sub_one]

theorem src_lt_64 (m : Nat) : m &&& MOVE_SQ_MASK < 64 :=
  Nat.lt_of_le_of_lt Nat.and_le_right (by decide)

theorem dest_lt_64 (m : Nat) : (m &&& (MOVE_SQ_MASK <<< DEST_SQ)) >>> DEST_SQ < 64 :=
  Nat.lt_of_le_of_lt (extract_le ..) (by decide)

theorem promo_lt_8 (m : Nat) : (m &&& (MOVE_PIECE_MASK <<< PROMO_PIECE)) >>> PROMO_PIECE < 8 :=
  Nat.lt_of_le_of_lt (extract_le ..) (by decide)

theorem castles_testBit_makeMove {b m i : Nat}
    (h : (getCastles (makeMove b m)).testBit i = true) :
    (getCastles b).testBit i = true := by
  have hi : i < 4 := by
    by_contra hge
    rw [testBit_getCastles] at h
    simp [hge] at h
  rw [testBit_getCastles] at h ⊢
  rw [makeMove, testBit_makeMoveCore_castles (src_lt_64 m) (dest_lt_64 m) (promo_lt_8 m) hi] at h
  simp only [Bool.and_eq_true] at h ⊢
  exact ⟨h.1.1, h.2⟩

/-- C7: for every position and applied move, each castling-rights bit of the
successor implies the corresponding bit of the predecessor (bits only ever
clear, never set), and hence the set of castling rights is monotonically
non-increasing across any sequence of applied moves. -/
theorem C7_castling_rights_monotone :
    (∀ (bits move i : Nat), (getCastles (makeMove bits move)).testBit i = true →
        (getCastles bits).testBit i = true) ∧
    (∀ (bits : Nat) (moves : List Nat) (i : Nat),
        (getCastles (applyMoves bits moves)).testBit i = true →
        (getCastles bits).testBit i = true) := by
  constructor
  · intro bits move i h
    exact castles_testBit_makeMove h
  · intro bits moves
    induction moves generalizing bits with
    | nil => intro i h; exact h
    | cons m ms ih =>
      intro i h
      rw [applyMoves, List.foldl_cons] at h
      exact castles_testBit_makeMove (ih (makeMove bits m) i h)

/-- Witness for C7 at a concrete input: after 1.e2e4 from the starting
position white's king-side right (bit 2) is still set, and the theorem
transports it back to the predecessor. -/
theorem C7_castling_rights_monotone_witness :
    (getCastles (makeMove startBits (constructMove 52 36 9 0 0 0))).testBit 2 = true ∧
    (getCastles startBits).testBit 2 = true ∧
    (getCastles (applyMoves startBits [constructMove 52 36 9 0 0 0])).testBit 3 = true ∧
    (getCastles startBits).testBit 3 = true :=
  ⟨by decide,
   C7_castling_rights_monotone.1 startBits (constructMove 52 36 9 0 0 0) 2 (by decide),
   by decide,
   C7_castling_rights_monotone.2 startBits [constructMove 52 36 9 0 0 0] 3 (by decide)⟩

theorem testBit_maskClearB (x m k : Nat) :
    (x ^^^ (x &&& m)).testBit k = (x.testBit k && !(m.testBit k)) := by
  rw [Nat.testBit_xor, Nat.testBit_and]
  cases x.testBit k <;> cases m.testBit k <;> rfl

theorem testBit_getEnpassant (x j : Nat) :
    (getEnpassant x).testBit j = (x.testBit (261 + j) && decide (j < 6)) := by
  rw [getEnpassant, ENPASSANT_START, ENPASSANT_MASK, Nat.testBit_shiftRight, Nat.testBit_and]
  congr 1
  rw [Nat.testBit_shiftLeft]
  simp only [Nat.le_add_right, decide_True, Bool.true_and, Nat.add_sub_cancel_left]
  rw [show (63 : Nat) = 2 ^ 6 - 1 from rfl, Nat.testBit_two_pow_sub_one]

theorem lt_two_pow_of_lt_64 {v j : Nat} (hv : v < 64) (hj : 6 ≤ j) : v < 2 ^ j :=
  Nat.lt_of_lt_of_le hv
    (Nat.le_trans (by norm_num : (64 : Nat) ≤ 2 ^ 6) (Nat.pow_le_pow_right (by norm_num) hj))

theorem epVal_lt_64 (w src : Nat) : ((if w == 1 then 0o50 else 0o20) ||| (src &&& 0b111)) < 64 := by
  rw [show (64 : Nat) = 2 ^ 6 by norm_num]
  apply Nat.or_lt_two_pow
  · split <;> decide
  · exact Nat.lt_of_le_of_lt Nat.and_le_right (by decide)

theorem getEnpassant_makeMoveCore {s mv src dest promo : Nat}
    (hdest : dest < 64) (hpromo : promo < 8) :
    getEnpassant (makeMoveCore s mv src dest promo) =
      if (pieceType (getPiece s src) == PAWN && (natAbsDiff src dest == 0o20)) = true then
        (if (whiteToMove s == 1) = true then 0o50 else 0o20) ||| (src &&& 0b111)
      else 0 := by
  have hcap : (((src &&& (0b111 <<< 3)) ||| (dest &&& 0b111)) * PIECE_SIZE) + 4 ≤ 261 := by
    have h1 : ((src &&& (0b111 <<< 3)) ||| (dest &&& 0b111)) < 2 ^ 6 :=
      Nat.or_lt_two_pow (Nat.lt_of_le_of_lt Nat.and_le_right (by decide))
        (Nat.lt_of_le_of_lt Nat.and_le_right (by decide))
    norm_num at h1
    simp only [PIECE_SIZE]
    omega
  apply Nat.eq_of_testBit_eq
  intro j
  rw [testBit_getEnpassant]
  rw [makeMoveCore]
  try dsimp only
  rw [testBit_sideFlip (by omega)]
  rw [testBit_addPiece (ite_lt_16 (promoPiece_lt_16 s hpromo) (getPiece_lt_16 ..))
    (by simp only [PIECE_SIZE]; omega)]
  split
  · -- pawn double advance: the en-passant field is set to the new value
    rw [Nat.testBit_or, testBit_maskClearB]
    rw [show (((if (whiteToMove s == 1) = true then 40 else 16) ||| (src &&& 0b111))
          <<< ENPASSANT_START).testBit (261 + j) =
        ((if (whiteToMove s == 1) = true then 40 else 16) ||| (src &&& 0b111)).testBit j by
      rw [ENPASSANT_START, Nat.testBit_shiftLeft]
      simp [Nat.add_sub_cancel_left]]
    rw [show ((ENPASSANT_MASK : Nat) <<< ENPASSANT_START).testBit (261 + j) = decide (j < 6) by
      rw [ENPASSANT_MASK, ENPASSANT_START, Nat.testBit_shiftLeft]
      simp only [Nat.le_add_right, decide_True, Bool.true_and, Nat.add_sub_cancel_left]
      rw [show (63 : Nat) = 2 ^ 6 - 1 from rfl, Nat.testBit_two_pow_sub_one]]
    rcases Nat.lt_or_ge j 6 with hj | hj
    · simp [hj]
    · have h40 : (if whiteToMove s = 1 then (40 : Nat) else 16).testBit j = false := by
        split <;> exact Nat.testBit_lt_two_pow (lt_two_pow_of_lt_64 (by norm_num) hj)
      have h7 : Nat.testBit 7 j = false :=
        Nat.testBit_lt_two_pow (lt_two_pow_of_lt_64 (by norm_num) hj)
      simp [Nat.not_lt.2 hj, Nat.testBit_or, Nat.testBit_and, h40, h7]
  · -- not a double advance: the field was cleared and stays 0
    rw [testBit_maskClearB]
    rw [show ((ENPASSANT_MASK : Nat) <<< ENPASSANT_START).testBit (261 + j) = decide (j < 6) by
      rw [ENPASSANT_MASK, ENPASSANT_START, Nat.testBit_shiftLeft]
      simp only [Nat.le_add_right, decide_True, Bool.true_and, Nat.add_sub_cancel_left]
      rw [show (63 : Nat) = 2 ^ 6 - 1 from rfl, Nat.testBit_two_pow_sub_one]]
    rcases Nat.lt_or_ge j 6 with hj | hj
    · simp [hj]
    · simp [Nat.not_lt.2 hj]

theorem getEnpassant_makeMove (b m : Nat) :
    getEnpassant (makeMove b m) =
      if (pieceType (getPiece b (moveSrc m)) == PAWN &&
            (natAbsDiff (moveSrc m) (moveDest m) == 0o20)) = true then
        (if (whiteToMove b == 1) = true then 0o50 else 0o20) ||| (moveSrc m &&& 0b111)
      else 0 := by
  rw [makeMove, getEnpassant_makeMoveCore (dest_lt_64 m) (promo_lt_8 m)]
  rfl

theorem whiteToMove_makeMove (b m : Nat) : whiteToMove (makeMove b m) = 1 - whiteToMove b := by
  have hcap : (((m &&& MOVE_SQ_MASK) &&& (0b111 <<< 3)) |||
      ((m &&& (MOVE_SQ_MASK <<< DEST_SQ)) >>> DEST_SQ &&& 0b111)) * PIECE_SIZE + 4 ≤ 256 := by
    have h1 : (((m &&& MOVE_SQ_MASK) &&& (0b111 <<< 3)) |||
        ((m &&& (MOVE_SQ_MASK <<< DEST_SQ)) >>> DEST_SQ &&& 0b111)) < 2 ^ 6 :=
      Nat.or_lt_two_pow (Nat.lt_of_le_of_lt Nat.and_le_right (by decide))
        (Nat.lt_of_le_of_lt Nat.and_le_right (by decide))
    norm_num at h1
    simp only [PIECE_SIZE]
    omega
  have h : (makeMove b m).testBit 256 = !(b.testBit 256) := by
    rw [makeMove, makeMoveCore]
    try dsimp only
    rw [Nat.testBit_xor,
      show ((1 : Nat) <<< SIDE_TO_MOVE_START).testBit 256 = true by decide]
    rw [testBit_addPiece (ite_lt_16 (promoPiece_lt_16 b (promo_lt_8 m)) (getPiece_lt_16 ..))
      (by have := dest_lt_64 m; simp only [PIECE_SIZE]; omega)]
    split <;>
      try rw [Nat.testBit_or, testBit_shiftLeft_low (by simp [ENPASSANT_START]), Bool.or_false]
    all_goals
      rw [testBit_maskClear (testBit_shiftLeft_low (k := 256) (by simp [ENPASSANT_START]))]
    all_goals split <;> try rw [testBit_removePiece hcap]
    all_goals
      rw [testBit_castleLogic_other (Or.inl rfl),
        testBit_removePiece (by have := src_lt_64 m; simp only [PIECE_SIZE]; omega)]
    all_goals cases b.testBit 256 <;> rfl
  rw [whiteToMove_eq_toNat, whiteToMove_eq_toNat, h]
  cases b.testBit 256 <;> rfl

theorem epVal40_ne (c : Nat) : ((0o50 : Nat) ||| c) ≠ 0 := by
  intro h
  have h5 := congrArg (fun x => Nat.testBit x 5) h
  simp [Nat.testBit_or, show Nat.testBit 40 5 = true from by decide] at h5

theorem epVal20_ne (c : Nat) : ((0o20 : Nat) ||| c) ≠ 0 := by
  intro h
  have h4 := congrArg (fun x => Nat.testBit x 4) h
  simp [Nat.testBit_or, show Nat.testBit 16 4 = true from by decide] at h4

theorem epVal_ne_zero (w c : Nat) :
    ((if (w == 1) = true then (0o50 : Nat) else 0o20) ||| c) ≠ 0 := by
  split
  · exact epVal40_ne c
  · exact epVal20_ne c

theorem epVal_white_ne_black {c1 c2 : Nat} (h1 : c1 < 8) (h2 : c2 < 8) :
    ((0o50 : Nat) ||| c1) ≠ (0o20 ||| c2) := by
  intro h
  have h5 := congrArg (fun x => Nat.testBit x 5) h
  simp only [Nat.testBit_or] at h5
  rw [show Nat.testBit 40 5 = true from by decide, show Nat.testBit 16 5 = false from by decide,
    Nat.testBit_lt_two_pow (Nat.lt_of_lt_of_le h1 (by norm_num)),
    Nat.testBit_lt_two_pow (Nat.lt_of_lt_of_le h2 (by norm_num))] at h5
  simp at h5

/-- C8: the successor of any applied move has an en-passant target set
exactly when the move was a pawn double advance, and an en-passant target
never survives the next applied move (it is consumed or cleared one ply
later). -/
theorem C8_enpassant_one_shot :
    (∀ (bits move : Nat),
        getEnpassant (makeMove bits move) ≠ 0 ↔ isPawnDoubleAdvance bits move = true) ∧
    (∀ (bits m1 m2 : Nat), getEnpassant (makeMove bits m1) ≠ 0 →
        getEnpassant (makeMove (makeMove bits m1) m2) ≠ getEnpassant (makeMove bits m1)) := by
  constructor
  · intro b m
    rw [getEnpassant_makeMove, isPawnDoubleAdvance]
    split
    next h => exact iff_of_true (epVal_ne_zero (whiteToMove b) (moveSrc m &&& 0b111)) h
    next h => exact iff_of_false (by simp) (by simpa using h)
  · intro b m1 m2 h1 heq
    rw [getEnpassant_makeMove b m1] at h1 heq
    rw [getEnpassant_makeMove (makeMove b m1) m2] at heq
    rw [whiteToMove_makeMove] at heq
    split at h1
    case isFalse => exact h1 rfl
    case isTrue hc1 =>
      rw [if_pos hc1] at heq
      have hcb1 : (moveSrc m1 &&& 0b111) < 8 :=
        Nat.lt_of_le_of_lt Nat.and_le_right (by decide)
      have hcb2 : (moveSrc m2 &&& 0b111) < 8 :=
        Nat.lt_of_le_of_lt Nat.and_le_right (by decide)
      have hw : whiteToMove b = 0 ∨ whiteToMove b = 1 := by
        rw [whiteToMove_eq_toNat]
        cases b.testBit 256 <;> simp
      split at heq
      case isFalse =>
        rcases hw with hw | hw <;> rw [hw] at heq
        · exact epVal20_ne _ (by simpa using heq.symm)
        · exact epVal40_ne _ (by simpa using heq.symm)
      case isTrue =>
        rcases hw with hw | hw <;> rw [hw] at heq <;> simp at heq
        · exact epVal_white_ne_black hcb2 hcb1 heq
        · exact epVal_white_ne_black hcb1 hcb2 heq.symm

/-- Witness for C8 at concrete inputs: after 1.e2e4 the en-passant target
is set (e3) and the move was a pawn double advance; after black's reply
a7a6 the target is cleared, hence differs. -/
theorem C8_enpassant_one_shot_witness :
    (getEnpassant (makeMove startBits (constructMove 52 36 9 0 0 0)) ≠ 0 ∧
      isPawnDoubleAdvance startBits (constructMove 52 36 9 0 0 0) = true) ∧
    getEnpassant (makeMove (makeMove startBits (constructMove 52 36 9 0 0 0))
        (constructMove 8 16 1 0 0 0)) ≠
      getEnpassant (makeMove startBits (constructMove 52 36 9 0 0 0)) :=
  ⟨⟨by decide, (C8_enpassant_one_shot.1 startBits (constructMove 52 36 9 0 0 0)).mp (by decide)⟩,
   C8_enpassant_one_shot.2 startBits (constructMove 52 36 9 0 0 0)
     (constructMove 8 16 1 0 0 0) (by decide)⟩

theorem mem_insertDesc {x b : Nat} {l : List Nat} :
    b ∈ insertDesc x l ↔ b = x ∨ b ∈ l := by
  induction l with
  | nil => simp [insertDesc]
  | cons y ys ih =>
    rw [insertDesc]
    split
    · simp only [List.mem_cons, ih]
      tauto
    · simp [List.mem_cons]

theorem mem_sortDesc {b : Nat} {l : List Nat} : b ∈ sortDesc l ↔ b ∈ l := by
  induction l with
  | nil => simp [sortDesc]
  | cons y ys ih =>
    rw [sortDesc, mem_insertDesc]
    simp [ih]

theorem pairwise_insertDesc {x : Nat} {l : List Nat}
    (h : l.Pairwise (fun a b => sortKey b ≤ sortKey a)) :
    (insertDesc x l).Pairwise (fun a b => sortKey b ≤ sortKey a) := by
  induction l with
  | nil => simp [insertDesc]
  | cons y ys ih =>
    rw [insertDesc]
    rcases List.pairwise_cons.mp h with ⟨hy, hys⟩
    split
    case isTrue hlt =>
      refine List.pairwise_cons.mpr ⟨?_, ih hys⟩
      intro b hb
      rcases mem_insertDesc.mp hb with rfl | hb
      · exact Nat.le_of_lt hlt
      · exact hy b hb
    case isFalse hge =>
      refine List.pairwise_cons.mpr ⟨?_, h⟩
      intro b hb
      rcases List.mem_cons.mp hb with rfl | hb
      · exact Nat.le_of_not_lt hge
      · exact Nat.le_trans (hy b hb) (Nat.le_of_not_lt hge)

theorem sortDesc_pairwise (l : List Nat) :
    (sortDesc l).Pairwise (fun a b => sortKey b ≤ sortKey a) := by
  induction l with
  | nil => simp [sortDesc]
  | cons y ys ih => exact pairwise_insertDesc ih

/-- Filtering an `insertDesc` at a fixed key value: when the inserted
element has that key it lands at the head of the filtered list (every
element it is inserted after has a strictly larger key), and every other
element keeps its relative position. -/
theorem filter_insertDesc_key (k x : Nat) (l : List Nat) :
    (insertDesc x l).filter (fun m => sortKey m == k) =
      if sortKey x == k then x :: l.filter (fun m => sortKey m == k)
      else l.filter (fun m => sortKey m == k) := by
  induction l with
  | nil =>
    rw [insertDesc]
    cases hx : sortKey x == k <;> simp [List.filter, hx]
  | cons y ys ih =>
    rw [insertDesc]
    split
    case isTrue hlt =>
      rw [List.filter_cons, ih]
      cases hx : sortKey x == k <;> cases hy : sortKey y == k
      · simp [List.filter_cons, hx, hy]
      · simp [List.filter_cons, hx, hy]
      · simp [List.filter_cons, hx, hy]
      · rw [beq_iff_eq] at hx hy
        omega
    case isFalse hge =>
      rw [List.filter_cons]

/-- `sortDesc` is stable: filtering at any fixed key value gives the same
list before and after sorting — elements of equal key keep their original
relative order. -/
theorem sortDesc_filter_key (k : Nat) (l : List Nat) :
    (sortDesc l).filter (fun m => sortKey m == k) =
      l.filter (fun m => sortKey m == k) := by
  induction l with
  | nil => rfl
  | cons x xs ih =>
    rw [sortDesc, filter_insertDesc_key, ih, List.filter_cons]

theorem mem_kingCheckAnalysis {s : Nat} {l : List Nat} {m : Nat}
    (h : m ∈ kingCheckAnalysis s l) :
    ∃ m0 ∈ l, m = m0 ∨ m = m0 ||| (CHECK <<< MOVE_META) := by
  induction l with
  | nil => simp [kingCheckAnalysis] at h
  | cons a as ih =>
    rw [kingCheckAnalysis] at h
    have htail : m ∈ kingCheckAnalysis s as →
        ∃ m0 ∈ a :: as, m = m0 ∨ m = m0 ||| (CHECK <<< MOVE_META) := by
      intro hm
      obtain ⟨m0, hm0, hor⟩ := ih hm
      exact ⟨m0, List.mem_cons_of_mem _ hm0, hor⟩
    repeat' first
      | dsimp only at h
      | split at h
    all_goals first
      | exact htail h
      | (rcases List.mem_cons.mp h with heq | h
         exacts [⟨a, List.mem_cons_self .., Or.inr heq⟩, htail h])
      | (rcases List.mem_cons.mp h with heq | h
         exacts [⟨a, List.mem_cons_self .., Or.inl heq⟩, htail h])

theorem castleFlag_or_check (m : Nat) :
    castleFlag (m ||| (CHECK <<< MOVE_META)) = castleFlag m := by
  rw [castleFlag, castleFlag, Nat.and_comm, Nat.and_or_distrib_left]
  rw [show ((CASTLE : Nat) <<< MOVE_META) &&& ((CHECK : Nat) <<< MOVE_META) = 0 from by decide,
    Nat.or_zero, Nat.and_comm]

theorem moveSrc_or_check (m : Nat) : moveSrc (m ||| (CHECK <<< MOVE_META)) = moveSrc m := by
  rw [moveSrc, moveSrc, Nat.and_comm, Nat.and_or_distrib_left]
  rw [show ((MOVE_SQ_MASK : Nat)) &&& ((CHECK : Nat) <<< MOVE_META) = 0 from by decide,
    Nat.or_zero, Nat.and_comm]

theorem shift6_and_63 {v s : Nat} (hs : 6 ≤ s) : (v <<< s) &&& 63 = 0 := by
  apply Nat.eq_of_testBit_eq
  intro j
  simp only [Nat.testBit_and, Nat.zero_testBit]
  rcases Nat.lt_or_ge j 6 with hj | hj
  · rw [testBit_shiftLeft_low (by omega)]
    rfl
  · rw [show (63 : Nat).testBit j = false from
      Nat.testBit_lt_two_pow (lt_two_pow_of_lt_64 (by norm_num) hj)]
    simp

theorem and63_or_zero {A B : Nat} (hA : A &&& 63 = 0) (hB : B &&& 63 = 0) :
    (A ||| B) &&& 63 = 0 := by
  rw [Nat.and_comm, Nat.and_or_distrib_left, Nat.and_comm 63 A, hA, Nat.and_comm 63 B, hB]
  rfl

theorem or_and_63 {X i : Nat} (hX : X &&& 63 = 0) (hi : i < 64) : (X ||| i) &&& 63 = i := by
  rw [Nat.and_comm, Nat.and_or_distrib_left, Nat.and_comm 63 X, hX, Nat.and_comm 63 i,
    Nat.zero_or, show (63 : Nat) = 2 ^ 6 - 1 from rfl,
    Nat.and_pow_two_sub_one_of_lt_two_pow hi]

theorem moveSrc_constructMove {srcSq : Nat} (destSq srcPiece destPiece meta promoPiece : Nat)
    (h : srcSq < 64) :
    moveSrc (constructMove srcSq destSq srcPiece destPiece meta promoPiece) = srcSq := by
  rw [moveSrc, MOVE_SQ_MASK, constructMove]
  exact or_and_63
    (and63_or_zero
      (and63_or_zero
        (and63_or_zero
          (and63_or_zero
            (shift6_and_63 (by decide))
            (shift6_and_63 (by decide)))
          (shift6_and_63 (by decide)))
        (shift6_and_63 (by decide)))
      (shift6_and_63 (by decide)))
    h

theorem mem_slideGo {bits piece index : Nat} {multiStep : Bool} {d : Int × Int}
    {fuel : Nat} {destSq : Nat} {ob : Bool} {m : Nat}
    (h : m ∈ slideGo bits piece index multiStep d fuel destSq ob) :
    ∃ ds dp mt, m = constructMove index ds piece dp mt 0 := by
  induction fuel generalizing destSq ob with
  | zero => exact absurd h (List.not_mem_nil m)
  | succ fuel ih =>
    rw [slideGo] at h
    repeat' first | dsimp only at h | split at h
    all_goals first
      | exact absurd h (List.not_mem_nil m)
      | (rcases List.mem_cons.mp h with heq | h
         exacts [⟨destSq, _, _, heq⟩, ih h])
      | (rw [List.mem_singleton] at h
         exact ⟨destSq, _, _, h⟩)

theorem mem_legalMovesForNonPawns {bits piece index m : Nat} {dirs : List (Int × Int)}
    (h : m ∈ legalMovesForNonPawns bits piece index dirs) :
    ∃ ds dp mt, m = constructMove index ds piece dp mt 0 := by
  rw [legalMovesForNonPawns] at h
  dsimp only at h
  rw [List.mem_flatten] at h
  obtain ⟨l, hl, hm⟩ := h
  rw [List.mem_map] at hl
  obtain ⟨dd, _, rfl⟩ := hl
  rw [dirMoves] at hm
  exact mem_slideGo hm

theorem mem_pawnDiagStep {bits pawn index dpIn m : Nat} {diag : Int × Int}
    (h : m ∈ (pawnDiagStep bits pawn index diag dpIn).1) :
    ∃ ds dp mt pr, m = constructMove index ds pawn dp mt pr := by
  rw [pawnDiagStep] at h
  repeat' first | dsimp only at h | split at h
  all_goals first
    | exact absurd h (List.not_mem_nil m)
    | (rw [List.mem_singleton] at h
       exact ⟨_, _, _, _, h⟩)
    | (rw [List.mem_map] at h
       obtain ⟨pr, _, heq⟩ := h
       exact ⟨_, _, _, _, heq.symm⟩)

theorem mem_legalMovesForPawn {bits pawn index m : Nat}
    (h : m ∈ legalMovesForPawn bits pawn index) :
    ∃ ds dp mt pr, m = constructMove index ds pawn dp mt pr := by
  rw [legalMovesForPawn] at h
  repeat' first | dsimp only at h | split at h
  all_goals
    repeat
      first
        | exact mem_pawnDiagStep h
        | (rw [List.mem_singleton] at h
           exact ⟨_, _, _, _, h⟩)
        | (rw [List.mem_map] at h
           obtain ⟨pr, _, heq⟩ := h
           exact ⟨_, _, _, _, heq.symm⟩)
        | rcases List.mem_append.mp h with h | h

theorem moveSrc_legalMovesForPiece {bits piece index m : Nat} (hidx : index < 64)
    (h : m ∈ legalMovesForPiece bits piece index) : moveSrc m = index := by
  rw [legalMovesForPiece] at h
  split at h
  · obtain ⟨ds, dp, mt, pr, rfl⟩ := mem_legalMovesForPawn h
    exact moveSrc_constructMove _ _ _ _ _ hidx
  · obtain ⟨ds, dp, mt, rfl⟩ := mem_legalMovesForNonPawns h
    exact moveSrc_constructMove _ _ _ _ _ hidx

theorem mem_pieceMoves {bits m : Nat} (h : m ∈ pieceMoves bits) :
    getPiece bits (moveSrc m) ≠ 0 ∧
      isOpponentPiece bits (getPiece bits (moveSrc m)) = false := by
  rw [pieceMoves] at h
  rw [List.mem_flatten] at h
  obtain ⟨l, hl, hm⟩ := h
  rw [List.mem_map] at hl
  obtain ⟨i, hi, rfl⟩ := hl
  rw [List.mem_range, NUM_SQUARES] at hi
  repeat' first | dsimp only at hm | split at hm
  case isTrue => exact absurd hm (List.not_mem_nil m)
  case isFalse hcond =>
    rw [moveSrc_legalMovesForPiece hi hm]
    simp only [Bool.or_eq_true, beq_iff_eq, not_or, Bool.not_eq_true] at hcond
    exact ⟨hcond.1, hcond.2⟩

theorem castleFlag_legalCastleMoves {bits m : Nat} (h : m ∈ legalCastleMoves bits) :
    castleFlag m = true := by
  rw [legalCastleMoves] at h
  rcases List.mem_append.mp h with h | h <;>
  · rw [castleSideMoves] at h
    repeat' first | dsimp only at h | split at h
    all_goals first
      | exact absurd h (List.not_mem_nil m)
      | (rw [List.mem_singleton] at h
         subst h
         decide)

/-- C10: every non-castle move in the final legal-move list moves from a
square occupied by a piece of the side to move — never an empty square and
never an opponent's piece. -/
theorem C10_moves_from_own_squares :
    ∀ (bits m : Nat), m ∈ computeLegalMoves bits → castleFlag m = false →
      srcSquareOwn bits m = true := by
  intro bits m hmem hflag
  rw [computeLegalMoves, mem_sortDesc] at hmem
  obtain ⟨m0, hm0, hor⟩ := mem_kingCheckAnalysis hmem
  have hflag0 : castleFlag m0 = false := by
    rcases hor with rfl | rfl
    · exact hflag
    · rw [castleFlag_or_check] at hflag
      exact hflag
  have hsrc : moveSrc m = moveSrc m0 := by
    rcases hor with rfl | rfl
    · rfl
    · exact moveSrc_or_check m0
  rcases List.mem_append.mp hm0 with hp | hc
  · obtain ⟨h1, h2⟩ := mem_pieceMoves hp
    rw [srcSquareOwn, hsrc]
    simp only [Bool.and_eq_true, bne_iff_ne, ne_eq, Bool.not_eq_true']
    exact ⟨h1, h2⟩
  · rw [castleFlag_legalCastleMoves hc] at hflag0
    exact absurd hflag0 (by simp)

/-- Witness for C10 at a concrete input: the move e2e4 of the starting
position is a non-castle legal move and its source square holds a piece of
the side to move. -/
theorem C10_moves_from_own_squares_witness :
    constructMove 52 36 9 0 0 0 ∈ computeLegalMoves startBits ∧
    castleFlag (constructMove 52 36 9 0 0 0) = false ∧
    srcSquareOwn startBits (constructMove 52 36 9 0 0 0) = true :=
  ⟨by decide, by decide,
   C10_moves_from_own_squares startBits (constructMove 52 36 9 0 0 0) (by decide) (by decide)⟩

/-- C5 counterexample: in the concrete position `sortBits` the legal-move
list is NOT ordered with all check-giving moves first — the four non-check
capture-promotions (meta `CAPTURE ||| PROMOTION`) sort before the checking
rook move b1b5 (meta `CHECK`), because the sort key is the whole meta
nibble. -/
theorem C5_checks_first_counterexample :
    checksFirstB (computeLegalMoves sortBits) = false := by decide

/-- C5 (amended): the final legal-move list is the stable descending sort,
by the whole 4-bit meta nibble, of the generated list (piece moves then
castle moves, as post-processed by `kingCheckAnalysis`): it is sorted by
the meta nibble in non-increasing order (promotion and capture flags
included, so a non-check promotion sorts above a check), and for every key
value the subsequence of moves carrying that meta nibble is unchanged —
moves of equal key keep their generation order. -/
theorem C5_sorted_by_meta_desc :
    (∀ bits : Nat, (computeLegalMoves bits).Pairwise (fun a b => sortKey b ≤ sortKey a)) ∧
    (∀ bits k : Nat,
      (computeLegalMoves bits).filter (fun m => sortKey m == k) =
        (kingCheckAnalysis bits (pieceMoves bits ++ legalCastleMoves bits)).filter
          (fun m => sortKey m == k)) := by
  constructor
  · intro bits
    rw [computeLegalMoves]
    exact sortDesc_pairwise _
  · intro bits k
    rw [computeLegalMoves]
    exact sortDesc_filter_key _ _

/-- C9 counterexample: the text `e3e4` matches no legal move of the
starting position (its source square is empty), yet the string path of
`makeMove` does not fail — it returns a successor position (the board
unchanged except for the side-to-move flip). -/
theorem C9_no_failure_on_unmatched_text :
    (computeLegalMoves startBits).all (fun m => moveStr m != "e3e4") = true ∧
    makeMoveStr startBits "e3e4" = some (startBits ^^^ (1 <<< 256)) := by decide

/-- C9 (amended): the string path of `makeMove` never consults the legal
move list; whether it fails depends only on the text, never on the
position, and it fails exactly for: a text shorter than 4 characters
(Python `IndexError` in the square slices), a rank character (position 1
or 3) that is not a digit (Python `ValueError` in `int()`), a decoded
square index that is negative (Python `ValueError` on a negative shift at
the first board access), or a fifth character that is not one of the
promotion letters r, b, n, q (Python `KeyError`).  Every other text —
including one naming an empty or enemy source square, or a square index of
64 or more — yields a successor position.  The ASCII hypothesis confines
the digit test to where `Char.isDigit` coincides with what Python's
`int()` accepts. -/
theorem C9_text_path_total (bits : Nat) (s : String)
    (_h : ∀ c ∈ s.data, c.toNat < 128) :
    makeMoveStr bits s = none ↔ moveTextOk s = false := by
  rw [makeMoveStr, moveTextOk]
  rcases hd : s.data with _ | ⟨c0, _ | ⟨c1, _ | ⟨c2, _ | ⟨c3, rest⟩⟩⟩⟩
  · simp [algebraicToIndex]
  · simp [algebraicToIndex]
  · cases hc : c1.isDigit <;> simp [algebraicToIndex, hc]
  · cases hc : c1.isDigit <;> simp [algebraicToIndex, hc]
  · rcases hr : rest with _ | ⟨c4, rest2⟩ <;>
      cases h1 : c1.isDigit <;> cases h3 : c3.isDigit <;>
        simp [algebraicToIndex, goodSquare, h1, h3]
    rcases hp : PIECE_MAP c4 with _ | p <;> simp [hp]

/-- Witness for C9 at a concrete input: the all-ASCII text "zzzz" (both
rank characters are letters, so `int()` raises) is rejected, as the
characterization demands. -/
theorem C9_text_path_total_witness :
    (∀ c ∈ ("zzzz" : String).data, c.toNat < 128) ∧
    (makeMoveStr startBits "zzzz" = none ↔ moveTextOk "zzzz" = false) :=
  ⟨by decide, C9_text_path_total startBits "zzzz" (by decide)⟩

/-- C1 (code bug): in `promoBits` the generator emits the rook
under-promotion a7a8r, but `makeMove` places a white QUEEN (13) on a8, not
the requested rook; and the string path with no promotion letter ("a7a8")
places piece code 8 (the bare side bit — no piece kind at all) instead of
defaulting to a queen.  The source line is
`endPiece = (QUEEN if promo > 0 else promo) | self.sideToMove()`, whose
branches are swapped. -/
theorem C1_promotion_swapped_evidence :
    constructMove 8 0 9 0 0 ROOK ∈ computeLegalMoves promoBits ∧
    getPiece (makeMove promoBits (constructMove 8 0 9 0 0 ROOK)) 0 = (QUEEN ||| 8) ∧
    (QUEEN ||| 8 : Nat) ≠ (ROOK ||| 8) ∧
    ((makeMoveStr promoBits "a7a8").map (fun b => getPiece b 0)) = some 8 ∧
    (8 : Nat) ≠ (QUEEN ||| 8) := by decide

/-- C3 (code bug): the pawn case of `isSquareAttacked` takes its direction
from the side to move, not from the defender.  On the same board (white
pawn c7, black king d8) the detector reports the black king on d8 as NOT
pawn-attacked when black is to move, and as attacked when white is to move
— the two positions differ only in the side-to-move bit. -/
theorem C3_pawn_attack_depends_on_side_to_move :
    isSquareAttacked pawnAttackBitsB 3 KING = false ∧
    isSquareAttacked pawnAttackBitsW 3 KING = true ∧
    pawnAttackBitsW = pawnAttackBitsB + 2 ^ 256 ∧
    getPiece pawnAttackBitsB 10 = (PAWN ||| 8) := by decide

/-- C4 (code bug): in `castleThruBits` white's king-side right is set and
the black pawn on e2 attacks the transit square f1, yet the castle move
e1g1 is in the legal-move list: the transit-square test misses pawn
attacks because `isSquareAttacked` scans in the wrong direction for the
side to move (flipping only the side-to-move bit makes the same detector
see the attack on f1). -/
theorem C4_castle_through_attacked_transit :
    0o20067674 ∈ computeLegalMoves castleThruBits ∧
    getCastles castleThruBits &&& 4 ≠ 0 ∧
    getPiece castleThruBits 52 = PAWN ∧
    isSquareAttacked castleThruBits 61 (KING ||| 8) = false ∧
    isSquareAttacked (castleThruBits ^^^ (1 <<< 256)) 61 (KING ||| 8) = true := by decide

/-- C6 (code bug): applying Ra1b1 in `rookSlideBits` (all four rights set,
destination b1 — not an opponent home-rook square) clears BLACK's
queen-side right (bit 1) in addition to white's own queen-side right: the
"captured on its home square" test compares the destination row against
the mover's own home row and keys the side of the right on the source
column. -/
theorem C6_opponent_right_cleared_without_capture :
    constructMove 56 57 12 0 0 0 ∈ computeLegalMoves rookSlideBits ∧
    getCastles rookSlideBits = 15 ∧
    getCastles (makeMove rookSlideBits (constructMove 56 57 12 0 0 0)) = 5 ∧
    (getCastles (makeMove rookSlideBits (constructMove 56 57 12 0 0 0))).testBit 1 = false := by
  decide

/-- The starting position has exactly 20 legal moves (depth-1 perft). -/
theorem legalMoves_startpos_length : (computeLegalMoves startBits).length = 20 := by decide

theorem perft_one_startpos : perft 1 startBits = 20 := by decide

set_option maxHeartbeats 4000000 in
theorem perft_two_startpos : perft 2 startBits = 400 := by decide
